import Mathlib

/-!
Verification of the e-consultation sentiment analysis core
(`sentiment_analyzer.py`, `text_summarizer.py`).

Modelling conventions (shallow embedding):
* A Python `str` is modelled as `List Char` (abbreviated `PyStr`); only the
  ASCII fragment matters for the analysed code paths.
* Python floats are modelled as exact rationals `ℚ`; `round(x, n)` is
  modelled as the ideal round-half-to-even at `n` decimal digits.
  A pandas `mean()` over a possibly empty column is `Option ℚ`, with `none`
  standing for the float NaN produced on an empty column (every comparison
  with NaN is false, and `round` maps NaN to NaN).
* Python exceptions are modelled with `Except`: a raised exception aborts
  the rest of the computation, exactly like the `do`-bind on `Except`.
* Python dicts built as `{key: value}` maps are modelled as association
  lists keyed by their (first-occurrence ordered) distinct keys; lookups go
  through `find?`.  Iteration order of `value_counts().to_dict()` is
  irrelevant to every property proved here, which only inspects keys and
  values of the resulting mapping.
-/

abbrev PyStr := List Char

/-- The whitespace class of `str.split()` / regex `\s` (ASCII fragment). -/
def pyIsSpace (c : Char) : Bool :=
  c == ' ' || c == '\t' || c == '\n' || c == '\r' || c == Char.ofNat 11 || c == Char.ofNat 12

/-- Worker for `str.split()`: split on whitespace runs, dropping empties.
`acc` holds the (reversed) current token. -/
def splitWsAux : PyStr → PyStr → List PyStr
  | [], acc => if acc = [] then [] else [acc.reverse]
  | c :: rest, acc =>
    if pyIsSpace c then
      if acc = [] then splitWsAux rest [] else acc.reverse :: splitWsAux rest []
    else splitWsAux rest (c :: acc)

/-- Python `text.split()` (no separator argument). -/
def pySplit (s : PyStr) : List PyStr := splitWsAux s []

/-- Worker for `str.split('.')`: split at every dot, keeping empty parts. -/
def splitDotAux : PyStr → PyStr → List PyStr
  | [], acc => [acc.reverse]
  | c :: rest, acc =>
    if c = '.' then acc.reverse :: splitDotAux rest [] else splitDotAux rest (c :: acc)

/-- Python `text.split('.')`. -/
def pySplitDot (s : PyStr) : List PyStr := splitDotAux s []

/-- Python `sep.join(parts)`. -/
def pyJoin (sep : PyStr) : List PyStr → PyStr
  | [] => []
  | [t] => t
  | t :: t2 :: ts => t ++ sep ++ pyJoin sep (t2 :: ts)

/-- Python `str.strip()` (whitespace on both ends). -/
def pyStrip (s : PyStr) : PyStr :=
  ((s.dropWhile pyIsSpace).reverse.dropWhile pyIsSpace).reverse

/-- Python `str.lower()` (ASCII fragment). -/
def pyLower (s : PyStr) : PyStr := s.map Char.toLower

/-- `re.sub(r'[^a-zA-Z\s]', '', text.lower())`: lowercase, then delete every
character that is neither a letter nor whitespace. -/
def cleanText (s : PyStr) : PyStr :=
  (s.map Char.toLower).filter (fun c => c.isAlpha || pyIsSpace c)

/-- Python `sub in s` (substring containment). -/
def containsSub (sub s : PyStr) : Bool :=
  s.tails.any (fun t => sub.isPrefixOf t)

/-- Distinct elements of a list in first-occurrence order: the key order of a
Python `dict` / `collections.Counter` built by insertion, and of pandas
`unique()` / `value_counts()` keys. -/
def firstDedup {α : Type} [DecidableEq α] : List α → List α
  | [] => []
  | a :: l => a :: (firstDedup l).filter (fun b => decide (b ≠ a))

/-- `Series.value_counts().to_dict()`: each distinct value mapped to its
number of occurrences. -/
def value_counts (l : List PyStr) : List (PyStr × ℕ) :=
  (firstDedup l).map (fun s => (s, l.count s))

/-- Python `d.get(k, default)` on an association list with `ℕ` values. -/
def pyGetNat (d : List (PyStr × ℕ)) (k : PyStr) (dflt : ℕ) : ℕ :=
  match d.find? (fun kv => decide (kv.1 = k)) with
  | some kv => kv.2
  | none => dflt

/-- Python `d.get(k, default)` on an association list with `ℚ` values. -/
def pyGetQ (d : List (PyStr × ℚ)) (k : PyStr) (dflt : ℚ) : ℚ :=
  match d.find? (fun kv => decide (kv.1 = k)) with
  | some kv => kv.2
  | none => dflt

/-- pandas `Series.mean()`: `none` models the NaN returned on an empty
column. -/
def pymean (l : List ℚ) : Option ℚ :=
  if l.isEmpty then none else some (l.sum / (l.length : ℚ))

/-- `x > b` on a possibly-NaN float: every comparison with NaN is false. -/
def optGtQ (a : Option ℚ) (b : ℚ) : Bool :=
  match a with
  | none => false
  | some q => decide (b < q)

/-- `x < b` on a possibly-NaN float. -/
def optLtQ (a : Option ℚ) (b : ℚ) : Bool :=
  match a with
  | none => false
  | some q => decide (q < b)

/-- Ideal round-half-to-even to an integer (the rounding of Python
`round`). -/
def roundHalfEven (q : ℚ) : ℤ :=
  let f := ⌊q⌋
  if q - f < 1/2 then f
  else if 1/2 < q - f then f + 1
  else if f % 2 = 0 then f else f + 1

/-- Python `round(x, 3)`. -/
def round3 (q : ℚ) : ℚ := (roundHalfEven (q * 1000) : ℚ) / 1000

/-- Python `round(x, 1)`. -/
def round1 (q : ℚ) : ℚ := (roundHalfEven (q * 10) : ℚ) / 10

/-! ## SentimentAnalyzer (`sentiment_analyzer.py`) -/

/-- Exceptions that can cross the boundaries of the modelled functions:
a failure of the external TextBlob scoring capability, and the numeric
`ZeroDivisionError` of an unguarded division.  `emptyInputError` is the
error kind the specification claims for empty batches; it is included so
that statements about it can be written, but no modelled code produces
it. -/
inductive PyErr : Type
  | sentimentModelError
  | zeroDivisionError
  | emptyInputError
deriving DecidableEq

/-- Result dict of `SentimentAnalyzer.analyze_sentiment`. -/
structure SentimentTriple : Type where
  polarity : ℚ
  subjectivity : ℚ
  sentiment : PyStr
deriving DecidableEq

/-- The fixed threshold classification inside `analyze_sentiment`
(`sentiment_analyzer.py` lines 37-43). -/
def classifySentiment (polarity : ℚ) : PyStr :=
  if (1 : ℚ)/10 < polarity then "Positive".toList
  else if polarity < -((1 : ℚ)/10) then "Negative".toList
  else "Neutral".toList

/-- `SentimentAnalyzer.analyze_sentiment`.  The external lexicon model
(TextBlob) is the black-box parameter `tb`, returning polarity and
subjectivity for a text, or failing. -/
def analyze_sentiment (tb : PyStr → Except PyErr (ℚ × ℚ)) (text : PyStr) :
    Except PyErr SentimentTriple := do
  let ps ← tb text
  pure ⟨ps.1, ps.2, classifySentiment ps.1⟩

/-- One input row of the comments dataframe. -/
structure RawComment : Type where
  comment_id : PyStr
  stakeholder_name : PyStr
  comment_text : PyStr
  provision_reference : PyStr
deriving DecidableEq

/-- One output row of `analyze_comments_batch`. -/
structure SentimentRow : Type where
  comment_id : PyStr
  stakeholder_name : PyStr
  comment_text : PyStr
  provision_reference : PyStr
  sentiment : PyStr
  polarity_score : ℚ
  subjectivity_score : ℚ
deriving DecidableEq

/-- The result row built inside the loop of `analyze_comments_batch`
(`sentiment_analyzer.py` lines 59-67). -/
def mkSentimentRow (row : RawComment) (analysis : SentimentTriple) : SentimentRow :=
  { comment_id := row.comment_id
    stakeholder_name := row.stakeholder_name
    comment_text := row.comment_text
    provision_reference := row.provision_reference
    sentiment := analysis.sentiment
    polarity_score := round3 analysis.polarity
    subjectivity_score := round3 analysis.subjectivity }

/-- `SentimentAnalyzer.analyze_comments_batch`: scores every row in order.
There is no exception handling in the source loop, so a failure of the
scorer propagates and aborts the whole batch, which the `Except` bind
models. -/
def analyze_comments_batch (tb : PyStr → Except PyErr (ℚ × ℚ)) :
    List RawComment → Except PyErr (List SentimentRow)
  | [] => Except.ok []
  | row :: rest => do
    let analysis ← analyze_sentiment tb row.comment_text
    let rows ← analyze_comments_batch tb rest
    Except.ok (mkSentimentRow row analysis :: rows)

/-- A total (never failing) scorer, wrapped for `analyze_comments_batch`. -/
def pureTb (f : PyStr → ℚ × ℚ) : PyStr → Except PyErr (ℚ × ℚ) :=
  fun t => Except.ok (f t)

/-- The row produced for `row` by a total scorer `f`. -/
def scoreRow (f : PyStr → ℚ × ℚ) (row : RawComment) : SentimentRow :=
  mkSentimentRow row ⟨(f row.comment_text).1, (f row.comment_text).2,
    classifySentiment (f row.comment_text).1⟩

/-- Return dict of `SentimentAnalyzer.get_overall_sentiment`. -/
structure OverallStats : Type where
  overall_sentiment : PyStr
  average_polarity : Option ℚ
  sentiment_distribution : List (PyStr × ℕ)
  total_comments : ℕ
  positive_percentage : ℚ
  negative_percentage : ℚ
  neutral_percentage : ℚ
deriving DecidableEq

/-- `SentimentAnalyzer.get_overall_sentiment` (`sentiment_analyzer.py`
lines 71-94).  On an empty input the percentage expressions divide the
label counts by `len(sentiments_df) = 0`, raising `ZeroDivisionError`;
everything computed before that point is discarded. -/
def get_overall_sentiment (sentiments_df : List SentimentRow) :
    Except PyErr OverallStats :=
  let sentiment_counts := value_counts (sentiments_df.map (fun r => r.sentiment))
  let avg_polarity := pymean (sentiments_df.map (fun r => r.polarity_score))
  let overall_sentiment :=
    if optGtQ avg_polarity (1/10) then "Positive".toList
    else if optLtQ avg_polarity (-(1/10)) then "Negative".toList
    else "Neutral".toList
  if sentiments_df.length = 0 then Except.error PyErr.zeroDivisionError
  else Except.ok
    { overall_sentiment := overall_sentiment
      average_polarity := avg_polarity.map round3
      sentiment_distribution := sentiment_counts
      total_comments := sentiments_df.length
      positive_percentage :=
        round1 ((pyGetNat sentiment_counts ("Positive".toList) 0 : ℚ) /
          (sentiments_df.length : ℚ) * 100)
      negative_percentage :=
        round1 ((pyGetNat sentiment_counts ("Negative".toList) 0 : ℚ) /
          (sentiments_df.length : ℚ) * 100)
      neutral_percentage :=
        round1 ((pyGetNat sentiment_counts ("Neutral".toList) 0 : ℚ) /
          (sentiments_df.length : ℚ) * 100) }

/-- Per-provision entry of `get_provision_wise_sentiment`. -/
structure ProvisionStats : Type where
  count : ℕ
  avg_polarity : Option ℚ
  sentiments : List (PyStr × ℕ)
deriving DecidableEq

/-- `SentimentAnalyzer.get_provision_wise_sentiment` (`sentiment_analyzer.py`
lines 115-129): group rows by provision (first-occurrence order of
`unique()`). -/
def get_provision_wise_sentiment (sentiments_df : List SentimentRow) :
    List (PyStr × ProvisionStats) :=
  (firstDedup (sentiments_df.map (fun r => r.provision_reference))).map
    (fun provision =>
      let provision_data :=
        sentiments_df.filter (fun r => decide (r.provision_reference = provision))
      (provision,
        { count := provision_data.length
          avg_polarity := (pymean (provision_data.map (fun r => r.polarity_score))).map round3
          sentiments := value_counts (provision_data.map (fun r => r.sentiment)) }))

/-- Per-stakeholder entry built inside `SentimentAnalyzer.analyze`
(`sentiment_analyzer.py` lines 149-154). -/
structure StakeholderStats : Type where
  positive : ℕ
  negative : ℕ
  neutral : ℕ
  total : ℕ
deriving DecidableEq

/-- The stakeholder-wise grouping of `SentimentAnalyzer.analyze`
(lines 146-154). -/
def stakeholder_wise (detailed_results : List SentimentRow) :
    List (PyStr × StakeholderStats) :=
  (firstDedup (detailed_results.map (fun r => r.stakeholder_name))).map
    (fun stakeholder =>
      let stakeholder_data :=
        detailed_results.filter (fun r => decide (r.stakeholder_name = stakeholder))
      (stakeholder,
        { positive := (stakeholder_data.filter
            (fun r => decide (r.sentiment = "Positive".toList))).length
          negative := (stakeholder_data.filter
            (fun r => decide (r.sentiment = "Negative".toList))).length
          neutral := (stakeholder_data.filter
            (fun r => decide (r.sentiment = "Neutral".toList))).length
          total := stakeholder_data.length }))

/-- Return dict of `SentimentAnalyzer.analyze`. -/
structure AnalyzeResult : Type where
  summary : List (PyStr × ℕ)
  detailed : List SentimentRow
  by_provision : List (PyStr × ProvisionStats)
  by_stakeholder : List (PyStr × StakeholderStats)
  overall_stats : OverallStats
deriving DecidableEq

/-- `SentimentAnalyzer.analyze` (`sentiment_analyzer.py` lines 131-167):
batch scoring, overall stats, per-provision and per-stakeholder rollups,
and the overall distribution with keys lowercased. -/
def analyze (tb : PyStr → Except PyErr (ℚ × ℚ)) (df : List RawComment) :
    Except PyErr AnalyzeResult := do
  let detailed_results ← analyze_comments_batch tb df
  let overall_stats ← get_overall_sentiment detailed_results
  Except.ok
    { summary := overall_stats.sentiment_distribution.map
        (fun kv => (pyLower kv.1, kv.2))
      detailed := detailed_results
      by_provision := get_provision_wise_sentiment detailed_results
      by_stakeholder := stakeholder_wise detailed_results
      overall_stats := overall_stats }

/-- Extract the payload of an `Except` with a default. -/
def exceptGetD {ε α : Type} (e : Except ε α) (d : α) : α :=
  match e with
  | Except.ok a => a
  | Except.error _ => d

/-! ## Basic lemmas -/

theorem mem_firstDedup {α : Type} [DecidableEq α] :
    ∀ (l : List α) (x : α), x ∈ firstDedup l ↔ x ∈ l := by
  intro l
  induction l with
  | nil => intro x; simp [firstDedup]
  | cons a l ih =>
    intro x
    rw [firstDedup]
    by_cases hx : x = a
    · subst hx; simp
    · simp only [List.mem_cons, List.mem_filter, decide_eq_true_eq, ih]
      constructor
      · rintro (h | ⟨h, _⟩)
        · exact Or.inl h
        · exact Or.inr h
      · rintro (h | h)
        · exact Or.inl h
        · exact Or.inr ⟨h, hx⟩

theorem find?_map_of_mem {α β : Type} [DecidableEq α] (f : α → β) :
    ∀ (keys : List α) (k : α), k ∈ keys →
      (keys.map (fun s => (s, f s))).find? (fun kv => decide (kv.1 = k)) =
        some (k, f k) := by
  intro keys
  induction keys with
  | nil => intro k hk; cases hk
  | cons s rest ih =>
    intro k hk
    by_cases hs : s = k
    · subst hs
      simp [List.find?]
    · rcases List.mem_cons.1 hk with h | h
      · exact absurd h.symm hs
      · simp only [List.map_cons, List.find?]
        have hd : decide (s = k) = false := by simp [hs]
        rw [hd]
        exact ih k h

theorem find?_map_of_not_mem {α β : Type} [DecidableEq α] (f : α → β) :
    ∀ (keys : List α) (k : α), k ∉ keys →
      (keys.map (fun s => (s, f s))).find? (fun kv => decide (kv.1 = k)) = none := by
  intro keys
  induction keys with
  | nil => intro k _; rfl
  | cons s rest ih =>
    intro k hk
    have hs : s ≠ k := fun h => hk (h ▸ List.mem_cons_self s rest)
    simp only [List.map_cons, List.find?]
    have hd : decide (s = k) = false := by simp [hs]
    rw [hd]
    exact ih k (fun h => hk (List.mem_cons_of_mem _ h))

/-- `d.get(lab, 0)` on `value_counts(l)` is just the number of occurrences
of `lab` in `l`. -/
theorem pyGetNat_value_counts (l : List PyStr) (k : PyStr) :
    pyGetNat (value_counts l) k 0 = l.count k := by
  by_cases hk : k ∈ l
  · have hk' : k ∈ firstDedup l := (mem_firstDedup l k).2 hk
    unfold pyGetNat value_counts
    rw [find?_map_of_mem (fun s => l.count s) _ k hk']
  · have hk' : k ∉ firstDedup l := fun h => hk ((mem_firstDedup l k).1 h)
    unfold pyGetNat value_counts
    rw [find?_map_of_not_mem (fun s => l.count s) _ k hk']
    exact (List.count_eq_zero.2 hk).symm

/-- With a total scorer, the batch succeeds and maps `scoreRow` over the
input in order. -/
theorem analyze_comments_batch_pure (f : PyStr → ℚ × ℚ) :
    ∀ df : List RawComment,
      analyze_comments_batch (pureTb f) df = Except.ok (df.map (scoreRow f)) := by
  intro df
  induction df with
  | nil => rfl
  | cons row rest ih =>
    simp only [analyze_comments_batch, analyze_sentiment, pureTb, ih, List.map_cons]
    rfl

/-- The classifier only ever produces the three fixed labels. -/
theorem classifySentiment_mem (p : ℚ) :
    classifySentiment p = "Positive".toList ∨
    classifySentiment p = "Negative".toList ∨
    classifySentiment p = "Neutral".toList := by
  unfold classifySentiment
  split_ifs <;> simp

/-- Counting the three labels partitions any list of labels drawn from
them. -/
theorem count_three_labels :
    ∀ l : List PyStr,
      (∀ s ∈ l, s = "Positive".toList ∨ s = "Negative".toList ∨ s = "Neutral".toList) →
      l.count ("Positive".toList) + l.count ("Negative".toList) +
        l.count ("Neutral".toList) = l.length := by
  intro l
  induction l with
  | nil => intro _; rfl
  | cons s rest ih =>
    intro h
    have hrest := ih (fun x hx => h x (List.mem_cons_of_mem _ hx))
    have hs := h s (List.mem_cons_self s rest)
    rcases hs with hs | hs | hs <;> subst hs
    · rw [List.count_cons_self, List.count_cons_of_ne (by decide),
        List.count_cons_of_ne (by decide), List.length_cons]
      omega
    · rw [List.count_cons_self, List.count_cons_of_ne (by decide),
        List.count_cons_of_ne (by decide), List.length_cons]
      omega
    · rw [List.count_cons_self, List.count_cons_of_ne (by decide),
        List.count_cons_of_ne (by decide), List.length_cons]
      omega

/-! ## C1: threshold classification of `analyze_sentiment` -/

theorem label_ne_PN : ("Positive".toList : PyStr) ≠ "Negative".toList := by decide

theorem label_ne_PU : ("Positive".toList : PyStr) ≠ "Neutral".toList := by decide

theorem label_ne_NU : ("Negative".toList : PyStr) ≠ "Neutral".toList := by decide

theorem classify_pos_iff (p : ℚ) :
    (classifySentiment p = "Positive".toList) ↔ 1/10 < p := by
  unfold classifySentiment
  split_ifs with h1 h2
  · simpa using h1
  · exact ⟨fun hh => absurd hh.symm label_ne_PN, fun hh => absurd hh h1⟩
  · exact ⟨fun hh => absurd hh.symm label_ne_PU, fun hh => absurd hh h1⟩

theorem classify_neg_iff (p : ℚ) :
    (classifySentiment p = "Negative".toList) ↔ p < -(1/10) := by
  unfold classifySentiment
  split_ifs with h1 h2
  · constructor
    · intro hh; exact absurd hh label_ne_PN
    · intro hh; exact absurd h1 (not_lt.2 (le_trans hh.le (by norm_num)))
  · simpa using h2
  · exact ⟨fun hh => absurd hh.symm label_ne_NU, fun hh => absurd hh h2⟩

theorem classify_neu_iff (p : ℚ) :
    (classifySentiment p = "Neutral".toList) ↔ (p ≤ 1/10 ∧ -(1/10) ≤ p) := by
  unfold classifySentiment
  split_ifs with h1 h2
  · constructor
    · intro hh; exact absurd hh label_ne_PU
    · intro hh; exact absurd h1 (not_lt.2 hh.1)
  · constructor
    · intro hh; exact absurd hh label_ne_NU
    · intro hh; exact absurd h2 (not_lt.2 hh.2)
  · exact ⟨fun _ => ⟨not_lt.1 h1, not_lt.1 h2⟩, fun _ => rfl⟩

/-- C1: for every polarity `p` returned by the external scorer, the label
assigned by `analyze_sentiment` is "Positive" iff `p > 0.1`, "Negative" iff
`p < -0.1`, and "Neutral" otherwise; in particular the boundary values
`p = 0.1` and `p = -0.1` are classified "Neutral". -/
theorem C1_analyze_sentiment_thresholds
    (tb : PyStr → Except PyErr (ℚ × ℚ)) (text : PyStr) (p s : ℚ)
    (h : tb text = Except.ok (p, s)) :
    ∃ res, analyze_sentiment tb text = Except.ok res ∧ res.polarity = p ∧
      ((res.sentiment = "Positive".toList) ↔ 1/10 < p) ∧
      ((res.sentiment = "Negative".toList) ↔ p < -(1/10)) ∧
      ((res.sentiment = "Neutral".toList) ↔ (p ≤ 1/10 ∧ -(1/10) ≤ p)) ∧
      ((p = 1/10 ∨ p = -(1/10)) → res.sentiment = "Neutral".toList) := by
  refine ⟨⟨p, s, classifySentiment p⟩, by simp [analyze_sentiment, h], rfl,
    classify_pos_iff p, classify_neg_iff p, classify_neu_iff p, ?_⟩
  intro hp
  show classifySentiment p = "Neutral".toList
  rcases hp with hp | hp <;> subst hp
  · exact (classify_neu_iff _).2 ⟨le_refl _, by norm_num⟩
  · exact (classify_neu_iff _).2 ⟨by norm_num, le_refl _⟩

/-- Witness for C1 at a concrete scorer and text. -/
theorem C1_witness :
    ∃ res, analyze_sentiment (pureTb (fun _ => (1/2, 0))) ("ok".toList) = Except.ok res ∧
      res.polarity = 1/2 ∧
      ((res.sentiment = "Positive".toList) ↔ 1/10 < (1/2 : ℚ)) ∧
      ((res.sentiment = "Negative".toList) ↔ (1/2 : ℚ) < -(1/10)) ∧
      ((res.sentiment = "Neutral".toList) ↔ ((1/2 : ℚ) ≤ 1/10 ∧ -(1/10) ≤ (1/2 : ℚ))) ∧
      (((1/2 : ℚ) = 1/10 ∨ (1/2 : ℚ) = -(1/10)) → res.sentiment = "Neutral".toList) :=
  C1_analyze_sentiment_thresholds (pureTb (fun _ => (1/2, 0))) ("ok".toList) (1/2) 0 rfl

/-! ## C2: `get_overall_sentiment` on the empty batch -/

/-- C2 counterexample: on the empty batch `get_overall_sentiment` raises the
numeric `ZeroDivisionError` of the unguarded `count/total*100` divisions,
not the `EmptyInputError` the claim asserts. -/
theorem C2_counterexample :
    get_overall_sentiment [] = Except.error PyErr.zeroDivisionError ∧
    get_overall_sentiment [] ≠ Except.error PyErr.emptyInputError := by
  constructor
  · rfl
  · intro h
    rw [show get_overall_sentiment [] = Except.error PyErr.zeroDivisionError from rfl] at h
    simp at h

/-- C2 (amended): on the empty batch `get_overall_sentiment` fails with the
numeric division-by-zero error (the percentage expressions divide by
`len(sentiments_df) = 0` unguarded) and returns no partial result; no
`EmptyInputError` guard exists in the code. -/
theorem C2_empty_batch_zero_division :
    get_overall_sentiment [] = Except.error PyErr.zeroDivisionError ∧
    ∀ stats : OverallStats, get_overall_sentiment [] ≠ Except.ok stats := by
  refine ⟨rfl, ?_⟩
  intro stats h
  rw [show get_overall_sentiment [] = Except.error PyErr.zeroDivisionError from rfl] at h
  simp at h

/-! ## C3: scorer failure during batch scoring -/

/-- A scorer that fails on the text "bad" and succeeds elsewhere. -/
def tbFailOnBad : PyStr → Except PyErr (ℚ × ℚ) :=
  fun t => if t = "bad".toList then Except.error PyErr.sentimentModelError
           else Except.ok (1/2, 0)

/-- A three-comment batch whose middle comment has the failing text. -/
def batchWithBad : List RawComment :=
  [⟨"1".toList, "Alice".toList, "fine work".toList, "Sec 1".toList⟩,
   ⟨"2".toList, "Bob".toList, "bad".toList, "Sec 1".toList⟩,
   ⟨"3".toList, "Carol".toList, "more fine work".toList, "Sec 2".toList⟩]

/-- C3 counterexample: when the scorer fails on the middle record, the whole
batch aborts with the error; no record (neither the failing one with a
substituted zero/Neutral result nor the remaining one) is returned. -/
theorem C3_counterexample :
    analyze_comments_batch tbFailOnBad batchWithBad =
      Except.error PyErr.sentimentModelError ∧
    ∀ rows : List SentimentRow,
      analyze_comments_batch tbFailOnBad batchWithBad ≠ Except.ok rows := by
  refine ⟨rfl, ?_⟩
  intro rows h
  rw [show analyze_comments_batch tbFailOnBad batchWithBad =
    Except.error PyErr.sentimentModelError from rfl] at h
  simp at h

/-- C3 (amended): `analyze_comments_batch` has no per-record recovery: if the
external scorer fails on the text of any record in the batch, the whole
batch aborts with an error and no result rows are returned at all. -/
theorem C3_batch_aborts_on_scorer_failure
    (tb : PyStr → Except PyErr (ℚ × ℚ)) (df : List RawComment)
    (h : ∃ row, row ∈ df ∧ ∃ e, tb row.comment_text = Except.error e) :
    (∃ e, analyze_comments_batch tb df = Except.error e) ∧
    ∀ rows : List SentimentRow, analyze_comments_batch tb df ≠ Except.ok rows := by
  have main : ∃ e, analyze_comments_batch tb df = Except.error e := by
    induction df with
    | nil =>
      rcases h with ⟨row, hrow, _⟩
      cases hrow
    | cons first rest ih =>
      rcases h with ⟨row, hrow, e, he⟩
      cases htb : tb first.comment_text with
      | error e1 =>
        refine ⟨e1, ?_⟩
        simp only [analyze_comments_batch, analyze_sentiment, htb]
        rfl
      | ok p =>
        rcases List.mem_cons.1 hrow with heq | hmem
        · subst heq
          rw [htb] at he
          cases he
        · rcases ih ⟨row, hmem, e, he⟩ with ⟨e2, he2⟩
          refine ⟨e2, ?_⟩
          simp only [analyze_comments_batch, analyze_sentiment, htb, he2]
          rfl
  refine ⟨main, ?_⟩
  rcases main with ⟨e, he⟩
  intro rows hrows
  rw [he] at hrows
  simp at hrows

/-- Witness for C3 (amended) at the concrete failing batch. -/
theorem C3_witness :
    (∃ e, analyze_comments_batch tbFailOnBad batchWithBad = Except.error e) ∧
    ∀ rows : List SentimentRow,
      analyze_comments_batch tbFailOnBad batchWithBad ≠ Except.ok rows :=
  C3_batch_aborts_on_scorer_failure tbFailOnBad batchWithBad
    ⟨⟨"2".toList, "Bob".toList, "bad".toList, "Sec 1".toList⟩,
      by decide, PyErr.sentimentModelError, rfl⟩

/-! ## C5: per-label counts sum to the group total -/

/-- Filtering by the three labels partitions any list of rows whose labels
are drawn from them. -/
theorem filter_three_labels :
    ∀ g : List SentimentRow,
      (∀ r ∈ g, r.sentiment = "Positive".toList ∨ r.sentiment = "Negative".toList ∨
        r.sentiment = "Neutral".toList) →
      (g.filter (fun r => decide (r.sentiment = "Positive".toList))).length +
      (g.filter (fun r => decide (r.sentiment = "Negative".toList))).length +
      (g.filter (fun r => decide (r.sentiment = "Neutral".toList))).length = g.length := by
  intro g
  induction g with
  | nil => intro _; rfl
  | cons r rest ih =>
    intro h
    have hrest := ih (fun x hx => h x (List.mem_cons_of_mem _ hx))
    have hs := h r (List.mem_cons_self r rest)
    rcases hs with hs | hs | hs
    · rw [List.filter_cons_of_pos (by simp [hs]),
        List.filter_cons_of_neg (by simp [hs, label_ne_PN]),
        List.filter_cons_of_neg (by simp [hs, label_ne_PU]),
        List.length_cons, List.length_cons]
      omega
    · rw [List.filter_cons_of_neg (by simp [hs]),
        List.filter_cons_of_pos (by simp [hs]),
        List.filter_cons_of_neg (by simp [hs, label_ne_NU]),
        List.length_cons, List.length_cons]
      omega
    · rw [List.filter_cons_of_neg (by simp [hs]),
        List.filter_cons_of_neg (by simp [hs]),
        List.filter_cons_of_pos (by simp [hs]),
        List.length_cons, List.length_cons]
      omega

/-- Every row produced by a total scorer carries one of the three labels. -/
theorem scored_labels (f : PyStr → ℚ × ℚ) (df : List RawComment) :
    ∀ r ∈ df.map (scoreRow f),
      r.sentiment = "Positive".toList ∨ r.sentiment = "Negative".toList ∨
      r.sentiment = "Neutral".toList := by
  intro r hr
  rcases List.mem_map.1 hr with ⟨row, _, heq⟩
  subst heq
  exact classifySentiment_mem (f row.comment_text).1

/-- The `d.get` sums over `value_counts` of a three-label list equal its
length. -/
theorem pyGetNat_three_sum (l : List PyStr)
    (h : ∀ s ∈ l, s = "Positive".toList ∨ s = "Negative".toList ∨ s = "Neutral".toList) :
    pyGetNat (value_counts l) ("Positive".toList) 0 +
    pyGetNat (value_counts l) ("Negative".toList) 0 +
    pyGetNat (value_counts l) ("Neutral".toList) 0 = l.length := by
  rw [pyGetNat_value_counts, pyGetNat_value_counts, pyGetNat_value_counts]
  exact count_three_labels l h

/-- Field content of a successful `get_overall_sentiment`. -/
theorem get_overall_ok_fields (rows : List SentimentRow) (stats : OverallStats)
    (h : get_overall_sentiment rows = Except.ok stats) :
    stats.sentiment_distribution = value_counts (rows.map (fun r => r.sentiment)) ∧
    stats.total_comments = rows.length ∧
    stats.average_polarity = (pymean (rows.map (fun r => r.polarity_score))).map round3 := by
  simp only [get_overall_sentiment] at h
  split at h
  · simp at h
  · have hrec := Except.ok.inj h
    rw [← hrec]
    exact ⟨rfl, rfl, rfl⟩

/-- C5: in every aggregate produced from a scored batch — the overall
distribution, each per-provision group and each per-stakeholder group —
the Positive, Negative and Neutral counts sum to the total record count of
that group. -/
theorem C5_label_counts_partition (f : PyStr → ℚ × ℚ) (df : List RawComment) :
    (∀ stats, get_overall_sentiment (df.map (scoreRow f)) = Except.ok stats →
      pyGetNat stats.sentiment_distribution ("Positive".toList) 0 +
      pyGetNat stats.sentiment_distribution ("Negative".toList) 0 +
      pyGetNat stats.sentiment_distribution ("Neutral".toList) 0 = stats.total_comments) ∧
    (∀ prov pstats, (prov, pstats) ∈ get_provision_wise_sentiment (df.map (scoreRow f)) →
      pyGetNat pstats.sentiments ("Positive".toList) 0 +
      pyGetNat pstats.sentiments ("Negative".toList) 0 +
      pyGetNat pstats.sentiments ("Neutral".toList) 0 = pstats.count) ∧
    (∀ st sstats, (st, sstats) ∈ stakeholder_wise (df.map (scoreRow f)) →
      sstats.positive + sstats.negative + sstats.neutral = sstats.total) := by
  refine ⟨?_, ?_, ?_⟩
  · intro stats hst
    obtain ⟨hdist, htot, _⟩ := get_overall_ok_fields _ _ hst
    rw [hdist, htot, ← List.length_map (df.map (scoreRow f)) (fun r => r.sentiment)]
    refine pyGetNat_three_sum _ ?_
    intro s hsmem
    rcases List.mem_map.1 hsmem with ⟨r, hr, heq⟩
    subst heq
    exact scored_labels f df r hr
  · intro prov pstats hmem
    unfold get_provision_wise_sentiment at hmem
    rcases List.mem_map.1 hmem with ⟨provision, _, heq⟩
    have h1 : provision = prov := congrArg Prod.fst heq
    subst h1
    have h2 := congrArg Prod.snd heq
    simp only at h2
    rw [← h2]
    simp only
    rw [← List.length_map
      ((df.map (scoreRow f)).filter (fun r => decide (r.provision_reference = provision)))
      (fun r => r.sentiment)]
    refine pyGetNat_three_sum _ ?_
    intro s hsmem
    rcases List.mem_map.1 hsmem with ⟨r, hr, heqs⟩
    subst heqs
    exact scored_labels f df r (List.mem_of_mem_filter hr)
  · intro st sstats hmem
    unfold stakeholder_wise at hmem
    rcases List.mem_map.1 hmem with ⟨stakeholder, _, heq⟩
    have h1 : stakeholder = st := congrArg Prod.fst heq
    subst h1
    have h2 := congrArg Prod.snd heq
    simp only at h2
    rw [← h2]
    simp only
    refine filter_three_labels _ ?_
    intro r hr
    exact scored_labels f df r (List.mem_of_mem_filter hr)

/-- A scorer and a one-row batch used by several witnesses. -/
def fZero : PyStr → ℚ × ℚ := fun _ => (0, 0)

def dfOne : List RawComment :=
  [⟨"1".toList, "Alice".toList, "nice".toList, "Sec 1".toList⟩]

def dummyStats : OverallStats := ⟨[], none, [], 0, 0, 0, 0⟩

def statsOne : OverallStats :=
  exceptGetD (get_overall_sentiment (dfOne.map (scoreRow fZero))) dummyStats

/-- Witness for C5 at a concrete one-row batch. -/
theorem C5_witness :
    pyGetNat statsOne.sentiment_distribution ("Positive".toList) 0 +
    pyGetNat statsOne.sentiment_distribution ("Negative".toList) 0 +
    pyGetNat statsOne.sentiment_distribution ("Neutral".toList) 0 =
      statsOne.total_comments :=
  (C5_label_counts_partition fZero dfOne).1 statsOne rfl

/-! ## C10: zero-count labels are absent from the distributions -/

theorem filter_length_pos_iff {α : Type} (p : α → Bool) (l : List α) :
    0 < (l.filter p).length ↔ ∃ a ∈ l, p a = true := by
  rw [List.length_pos]
  constructor
  · intro hne
    rcases List.exists_mem_of_ne_nil _ hne with ⟨a, ha⟩
    exact ⟨a, List.mem_of_mem_filter ha, List.of_mem_filter ha⟩
  · rintro ⟨a, ha, hpa⟩
    intro hnil
    have := List.mem_filter.2 ⟨ha, hpa⟩
    rw [hnil] at this
    cases this

/-- A label has an entry in `value_counts l` exactly when it occurs in
`l`. -/
theorem exists_mem_value_counts (l : List PyStr) (lab : PyStr) :
    (∃ c, (lab, c) ∈ value_counts l) ↔ lab ∈ l := by
  unfold value_counts
  constructor
  · rintro ⟨c, hc⟩
    rcases List.mem_map.1 hc with ⟨s, hs, heq⟩
    have h1 : s = lab := congrArg Prod.fst heq
    subst h1
    exact (mem_firstDedup _ _).1 hs
  · intro h
    exact ⟨l.count lab, List.mem_map.2 ⟨lab, (mem_firstDedup _ _).2 h, rfl⟩⟩

/-- Shape of a successful `analyze`. -/
theorem analyze_pure_ok (f : PyStr → ℚ × ℚ) (df : List RawComment)
    (res : AnalyzeResult) (h : analyze (pureTb f) df = Except.ok res) :
    res.summary = (value_counts ((df.map (scoreRow f)).map (fun r => r.sentiment))).map
      (fun kv => (pyLower kv.1, kv.2)) := by
  unfold analyze at h
  rw [analyze_comments_batch_pure] at h
  simp only [bind, Except.bind] at h
  cases hov : get_overall_sentiment (df.map (scoreRow f)) with
  | error e =>
    rw [hov] at h
    simp at h
  | ok stats =>
    rw [hov] at h
    obtain ⟨hdist, _, _⟩ := get_overall_ok_fields _ _ hov
    have hres := Except.ok.inj h
    rw [← hres]
    simp only
    rw [hdist]

/-- C10: in the overall `label_counts`/`sentiment_distribution` and in the
lowercase summary of `analyze`, a label appears as a key exactly when at
least one record carries it; labels with count zero are absent rather than
present with 0. -/
theorem C10_zero_count_labels_absent (f : PyStr → ℚ × ℚ) (df : List RawComment) :
    (∀ stats, get_overall_sentiment (df.map (scoreRow f)) = Except.ok stats →
      ∀ lab, (∃ c, (lab, c) ∈ stats.sentiment_distribution) ↔
        0 < ((df.map (scoreRow f)).filter
          (fun r => decide (r.sentiment = lab))).length) ∧
    (∀ res, analyze (pureTb f) df = Except.ok res →
      ∀ lab, (∃ c, (lab, c) ∈ res.summary) ↔
        0 < ((df.map (scoreRow f)).filter
          (fun r => decide (pyLower r.sentiment = lab))).length) := by
  constructor
  · intro stats hst lab
    obtain ⟨hdist, _, _⟩ := get_overall_ok_fields _ _ hst
    rw [hdist, exists_mem_value_counts, filter_length_pos_iff]
    constructor
    · intro hmem
      rcases List.mem_map.1 hmem with ⟨r, hr, heq⟩
      exact ⟨r, hr, by simp [heq]⟩
    · rintro ⟨r, hr, hpr⟩
      exact List.mem_map.2 ⟨r, hr, by simpa using hpr⟩
  · intro res hres lab
    rw [analyze_pure_ok f df res hres, filter_length_pos_iff]
    constructor
    · rintro ⟨c, hc⟩
      rcases List.mem_map.1 hc with ⟨kv, hkv, heq⟩
      rcases List.mem_map.1 hkv with ⟨s, hs, heqkv⟩
      have h1 : s = kv.1 := congrArg Prod.fst heqkv
      have hlow : pyLower kv.1 = lab := congrArg Prod.fst heq
      have hsin : kv.1 ∈ (df.map (scoreRow f)).map (fun r => r.sentiment) := by
        rw [← h1]
        exact (mem_firstDedup _ _).1 hs
      rcases List.mem_map.1 hsin with ⟨r, hr, heqs⟩
      exact ⟨r, hr, by simp [heqs, hlow]⟩
    · rintro ⟨r, hr, hpr⟩
      have hsin : r.sentiment ∈ (df.map (scoreRow f)).map (fun r => r.sentiment) :=
        List.mem_map.2 ⟨r, hr, rfl⟩
      refine ⟨((df.map (scoreRow f)).map (fun r => r.sentiment)).count r.sentiment, ?_⟩
      refine List.mem_map.2 ⟨(r.sentiment,
        ((df.map (scoreRow f)).map (fun r => r.sentiment)).count r.sentiment), ?_, ?_⟩
      · exact List.mem_map.2 ⟨r.sentiment, (mem_firstDedup _ _).2 hsin, rfl⟩
      · have hlow : pyLower r.sentiment = lab := of_decide_eq_true hpr
        rw [hlow]

/-- Witness for C10 at a concrete one-row batch and the label "Positive". -/
theorem C10_witness :
    (∃ c, ("Positive".toList, c) ∈ statsOne.sentiment_distribution) ↔
      0 < ((dfOne.map (scoreRow fZero)).filter
        (fun r => decide (r.sentiment = "Positive".toList))).length :=
  (C10_zero_count_labels_absent fZero dfOne).1 statsOne rfl ("Positive".toList)

/-! ## C4: the mean is taken over the 3-decimal-rounded per-record values -/

theorem roundHalfEven_intCast (n : ℤ) : roundHalfEven (n : ℚ) = n := by
  simp only [roundHalfEven, Int.floor_intCast]
  rw [if_pos]
  norm_num

theorem round3_milli : round3 (1/1000) = 1/1000 := by
  rw [round3, show (1:ℚ)/1000 * 1000 = ((1:ℤ) : ℚ) by norm_num, roundHalfEven_intCast]
  norm_num

theorem round3_zero : round3 0 = 0 := by
  rw [round3, show (0:ℚ) * 1000 = ((0:ℤ) : ℚ) by norm_num, roundHalfEven_intCast]
  norm_num

theorem round3_fifteenth : round3 (1/1500) = 1/1000 := by
  have h23 : ⌊(2:ℚ)/3⌋ = 0 := by
    rw [Int.floor_eq_zero_iff, Set.mem_Ico]
    norm_num
  rw [round3, show (1:ℚ)/1500 * 1000 = 2/3 by norm_num]
  simp only [roundHalfEven, h23]
  rw [if_neg (by norm_num), if_pos (by norm_num)]
  norm_num

/-- A scorer whose raw polarities are already 3-decimal values. -/
def f4 : PyStr → ℚ × ℚ := fun t =>
  if t = "a".toList then (1/1000, 0)
  else if t = "b".toList then (1/1000, 0)
  else (0, 0)

def df4 : List RawComment :=
  [⟨"1".toList, "A".toList, "a".toList, "S".toList⟩,
   ⟨"2".toList, "B".toList, "b".toList, "S".toList⟩,
   ⟨"3".toList, "C".toList, "c".toList, "S".toList⟩]

def rows4 : List SentimentRow := df4.map (scoreRow f4)

theorem rows4_polarity :
    rows4.map (fun r => r.polarity_score) = [round3 (1/1000), round3 (1/1000), round3 0] := rfl

theorem pymean_rows4 :
    pymean (rows4.map (fun r => r.polarity_score)) = some (1/1500) := by
  rw [rows4_polarity, round3_milli, round3_zero]
  simp only [pymean]
  norm_num

/-- C4 counterexample: for the batch `df4` the per-record rounded polarities
are 0.001, 0.001 and 0, whose arithmetic mean is 1/1500 = 0.000666…, but the
`average_polarity` reported by `get_overall_sentiment` is `round(·,3)` of
that mean, namely 0.001 — so the reported value does not equal the
arithmetic mean of the rounded per-record values. -/
theorem C4_counterexample :
    analyze_comments_batch (pureTb f4) df4 = Except.ok rows4 ∧
    Except.map (fun st => st.average_polarity) (get_overall_sentiment rows4) =
      Except.ok (some (1/1000)) ∧
    pymean (rows4.map (fun r => r.polarity_score)) = some (1/1500) ∧
    ((1:ℚ)/1000) ≠ 1/1500 := by
  refine ⟨analyze_comments_batch_pure f4 df4, ?_, pymean_rows4, by norm_num⟩
  have hex : get_overall_sentiment rows4 =
      Except.ok (exceptGetD (get_overall_sentiment rows4) dummyStats) := rfl
  obtain ⟨_, _, havg⟩ := get_overall_ok_fields rows4 _ hex
  have hmap2 : Except.map (fun st => st.average_polarity) (get_overall_sentiment rows4) =
      Except.ok ((exceptGetD (get_overall_sentiment rows4) dummyStats).average_polarity) := rfl
  rw [hmap2, havg, pymean_rows4]
  rw [show Option.map round3 (some ((1:ℚ)/1500)) = some (round3 (1/1500)) from rfl,
    round3_fifteenth]

/-- C4 (amended): the per-record `polarity_score` values are the raw
polarities rounded to 3 decimals, and the `average_polarity` reported by
`get_overall_sentiment` is the arithmetic mean of those 3-decimal-rounded
per-record values, itself rounded once more to 3 decimals (so the mean is
computed over rounded inputs, not raw scores, and then display-rounded). -/
theorem C4_mean_over_rounded (f : PyStr → ℚ × ℚ) (df : List RawComment)
    (h : df ≠ []) :
    analyze_comments_batch (pureTb f) df = Except.ok (df.map (scoreRow f)) ∧
    (df.map (scoreRow f)).map (fun r => r.polarity_score) =
      df.map (fun row => round3 (f row.comment_text).1) ∧
    (∃ stats, get_overall_sentiment (df.map (scoreRow f)) = Except.ok stats) ∧
    (∀ stats, get_overall_sentiment (df.map (scoreRow f)) = Except.ok stats →
      stats.average_polarity = some (round3
        ((df.map (fun row => round3 (f row.comment_text).1)).sum / (df.length : ℚ)))) := by
  have hmap : (df.map (scoreRow f)).map (fun r => r.polarity_score) =
      df.map (fun row => round3 (f row.comment_text).1) := by
    rw [List.map_map]
    rfl
  have hlen : ¬ (df.map (scoreRow f)).length = 0 := by
    simp only [List.length_map, List.length_eq_zero]
    exact h
  refine ⟨analyze_comments_batch_pure f df, hmap, ?_, ?_⟩
  · cases hov : get_overall_sentiment (df.map (scoreRow f)) with
    | ok stats => exact ⟨stats, rfl⟩
    | error e =>
      exfalso
      simp only [get_overall_sentiment] at hov
      rw [if_neg hlen] at hov
      simp at hov
  · intro stats hst
    obtain ⟨_, _, havg⟩ := get_overall_ok_fields _ _ hst
    rw [havg, hmap]
    have hne : (df.map (fun row => round3 (f row.comment_text).1)).isEmpty = false := by
      simp [h]
    simp only [pymean, hne, Bool.false_eq_true, if_false, List.length_map]
    rfl

/-- Witness for C4 (amended) at the concrete batch `df4`. -/
theorem C4_witness :
    analyze_comments_batch (pureTb f4) df4 = Except.ok (df4.map (scoreRow f4)) ∧
    (df4.map (scoreRow f4)).map (fun r => r.polarity_score) =
      df4.map (fun row => round3 (f4 row.comment_text).1) ∧
    (∃ stats, get_overall_sentiment (df4.map (scoreRow f4)) = Except.ok stats) ∧
    (∀ stats, get_overall_sentiment (df4.map (scoreRow f4)) = Except.ok stats →
      stats.average_polarity = some (round3
        ((df4.map (fun row => round3 (f4 row.comment_text).1)).sum / (df4.length : ℚ)))) :=
  C4_mean_over_rounded f4 df4 (by decide)

/-! ## C6: stakeholder-type bucketing (`text_summarizer.py` lines 164-177) -/

/-- The five stakeholder buckets of `create_stakeholder_summary`. -/
inductive StakeholderGroup : Type
  | Legal
  | Business
  | Government
  | Association
  | Individual
deriving DecidableEq

/-- Keyword test of the Legal branch. -/
def legalMatch (name : PyStr) : Bool :=
  containsSub ("firm".toList) (pyLower name) || containsSub ("legal".toList) (pyLower name) ||
    containsSub ("lawyer".toList) (pyLower name)

/-- Keyword test of the Business branch. -/
def businessMatch (name : PyStr) : Bool :=
  containsSub ("business".toList) (pyLower name) || containsSub ("company".toList) (pyLower name) ||
    containsSub ("ceo".toList) (pyLower name) || containsSub ("founder".toList) (pyLower name)

/-- Keyword test of the Government branch. -/
def governmentMatch (name : PyStr) : Bool :=
  containsSub ("ministry".toList) (pyLower name) ||
    containsSub ("government".toList) (pyLower name)

/-- Keyword test of the Association branch. -/
def associationMatch (name : PyStr) : Bool :=
  containsSub ("association".toList) (pyLower name) ||
    containsSub ("chamber".toList) (pyLower name) ||
    containsSub ("group".toList) (pyLower name) || containsSub ("org".toList) (pyLower name)

/-- The if/elif chain of `create_stakeholder_summary` assigning each
submitter name its bucket: Legal, then Business, then Government, then
Association, with Individual as the final else. -/
def bucketOfName (stakeholder_name : PyStr) : StakeholderGroup :=
  if legalMatch stakeholder_name then StakeholderGroup.Legal
  else if businessMatch stakeholder_name then StakeholderGroup.Business
  else if governmentMatch stakeholder_name then StakeholderGroup.Government
  else if associationMatch stakeholder_name then StakeholderGroup.Association
  else StakeholderGroup.Individual

/-- C6: every submitter name gets exactly one bucket, determined by testing
the keyword sets against the lowercased name in the priority order Legal,
Business, Government, Association, with Individual as the catch-all; and
"Acme Legal Partners" buckets to Legal. -/
theorem C6_bucket_priority (name : PyStr) :
    ((bucketOfName name = StakeholderGroup.Legal) ↔ legalMatch name = true) ∧
    ((bucketOfName name = StakeholderGroup.Business) ↔
      (legalMatch name = false ∧ businessMatch name = true)) ∧
    ((bucketOfName name = StakeholderGroup.Government) ↔
      (legalMatch name = false ∧ businessMatch name = false ∧
        governmentMatch name = true)) ∧
    ((bucketOfName name = StakeholderGroup.Association) ↔
      (legalMatch name = false ∧ businessMatch name = false ∧
        governmentMatch name = false ∧ associationMatch name = true)) ∧
    ((bucketOfName name = StakeholderGroup.Individual) ↔
      (legalMatch name = false ∧ businessMatch name = false ∧
        governmentMatch name = false ∧ associationMatch name = false)) ∧
    bucketOfName ("Acme Legal Partners".toList) = StakeholderGroup.Legal := by
  refine ⟨?_, ?_, ?_, ?_, ?_, by decide⟩ <;>
  · unfold bucketOfName
    cases h1 : legalMatch name <;> cases h2 : businessMatch name <;>
      cases h3 : governmentMatch name <;> cases h4 : associationMatch name <;>
      simp [h1, h2, h3, h4]

/-! ## C7: `extract_keywords` -/

/-- The descending order on counted pairs used by `Counter.most_common` and
`sorted(..., reverse=True)`; inserting earlier elements before later equal
ones makes `List.insertionSort` with this relation the stable descending
sort of Python. -/
def valOrd {α β : Type} [LinearOrder β] (a b : α × β) : Prop := b.2 ≤ a.2

instance valOrdDecidable {α β : Type} [LinearOrder β] :
    DecidableRel (@valOrd α β _) :=
  fun a b => inferInstanceAs (Decidable (b.2 ≤ a.2))

instance valOrdTotal {α β : Type} [LinearOrder β] : IsTotal (α × β) (@valOrd α β _) :=
  ⟨fun a b => le_total b.2 a.2⟩

instance valOrdTrans {α β : Type} [LinearOrder β] : IsTrans (α × β) (@valOrd α β _) :=
  ⟨fun _ _ _ h1 h2 => le_trans h2 h1⟩

/-- Inserting an element does not disturb the relative order of entries with
any fixed value `c`: the new element lands in front of exactly the old
entries of its own value. -/
theorem filter_orderedInsert {α β : Type} [LinearOrder β] [DecidableEq β] (c : β)
    (a : α × β) (l : List (α × β)) :
    (List.orderedInsert (@valOrd α β _) a l).filter (fun x => decide (x.2 = c)) =
    if a.2 = c then a :: l.filter (fun x => decide (x.2 = c))
    else l.filter (fun x => decide (x.2 = c)) := by
  induction l with
  | nil =>
    by_cases hac : a.2 = c
    · rw [if_pos hac]
      simp [List.orderedInsert, hac]
    · rw [if_neg hac]
      simp [List.orderedInsert, hac]
  | cons b l ih =>
    simp only [List.orderedInsert]
    by_cases hab : valOrd a b
    · rw [if_pos hab]
      by_cases hac : a.2 = c
      · rw [if_pos hac, List.filter_cons_of_pos (by simp [hac])]
      · rw [if_neg hac, List.filter_cons_of_neg (by simp [hac])]
    · rw [if_neg hab]
      by_cases hac : a.2 = c
      · have hbc : ¬ b.2 = c := by
          intro hbc
          exact hab (le_of_eq (hbc.trans hac.symm))
        rw [if_pos hac, List.filter_cons_of_neg (by simp [hbc]), ih, if_pos hac,
          List.filter_cons_of_neg (by simp [hbc])]
      · rw [if_neg hac]
        by_cases hbc : b.2 = c
        · rw [List.filter_cons_of_pos (by simp [hbc]), ih, if_neg hac,
            List.filter_cons_of_pos (by simp [hbc])]
        · rw [List.filter_cons_of_neg (by simp [hbc]), ih, if_neg hac,
            List.filter_cons_of_neg (by simp [hbc])]

/-- Stability of the descending insertion sort: for every value `c`, the
entries with value `c` come out in exactly the order they went in. -/
theorem filter_insertionSort {α β : Type} [LinearOrder β] [DecidableEq β] (c : β)
    (l : List (α × β)) :
    (List.insertionSort (@valOrd α β _) l).filter (fun x => decide (x.2 = c)) =
      l.filter (fun x => decide (x.2 = c)) := by
  induction l with
  | nil => rfl
  | cons a l ih =>
    simp only [List.insertionSort]
    rw [filter_orderedInsert]
    by_cases hac : a.2 = c
    · rw [if_pos hac, ih, List.filter_cons_of_pos (by simp [hac])]
    · rw [if_neg hac, ih, List.filter_cons_of_neg (by simp [hac])]

/-- The stop-word set of `SentimentAnalyzer.__init__`. -/
def saStopWords : List PyStr :=
  (["the", "is", "at", "which", "on", "and", "a", "an", "in",
    "to", "for", "of", "with", "as", "by", "that", "this",
    "it", "from", "or", "but", "are", "was", "were", "be",
    "have", "has", "had", "do", "does", "did", "will", "would",
    "could", "should", "may", "might", "must", "can", "shall"]).map String.toList

/-- The keyword tokens of `extract_keywords`: cleaned lowercase words that
are not stop-words and have length > 3. -/
def saKeywordTokens (text : PyStr) : List PyStr :=
  (pySplit (cleanText text)).filter
    (fun w => decide (w ∉ saStopWords) && decide (3 < w.length))

/-- `Counter(keywords)` as an insertion-ordered association list. -/
def keywordCounts (text : PyStr) : List (PyStr × ℕ) :=
  (firstDedup (saKeywordTokens text)).map
    (fun w => (w, (saKeywordTokens text).count w))

/-- `SentimentAnalyzer.extract_keywords` (`sentiment_analyzer.py`
lines 96-113): `Counter(keywords).most_common(num_keywords)`, i.e. the first
`num_keywords` entries of the stable descending sort of the counter. -/
def extract_keywords (text : PyStr) (num_keywords : ℕ) : List (PyStr × ℕ) :=
  (List.insertionSort (@valOrd PyStr ℕ _) (keywordCounts text)).take num_keywords

/-- C7: `extract_keywords text n` returns at most `n` pairs, sorted by
descending count with ties kept in first-encounter order (the stable-sort
characterisation: per count value, the order of the sorted counter equals
insertion order), and every returned token is a non-stop-word of length > 3
paired with its frequency. -/
theorem C7_extract_keywords_spec (text : PyStr) (n : ℕ) :
    extract_keywords text n =
      (List.insertionSort (@valOrd PyStr ℕ _) (keywordCounts text)).take n ∧
    (extract_keywords text n).length ≤ n ∧
    List.Pairwise (fun a b : PyStr × ℕ => b.2 ≤ a.2) (extract_keywords text n) ∧
    (∀ c, (List.insertionSort (@valOrd PyStr ℕ _) (keywordCounts text)).filter
        (fun x => decide (x.2 = c)) =
      (keywordCounts text).filter (fun x => decide (x.2 = c))) ∧
    (∀ kv ∈ extract_keywords text n,
      kv.1 ∉ saStopWords ∧ 3 < kv.1.length ∧
      kv.2 = (saKeywordTokens text).count kv.1) := by
  refine ⟨rfl, List.length_take_le n _, ?_, fun c => filter_insertionSort c _, ?_⟩
  · have hs := List.sorted_insertionSort (@valOrd PyStr ℕ _) (keywordCounts text)
    have hsub : List.Sublist (extract_keywords text n)
        (List.insertionSort (@valOrd PyStr ℕ _) (keywordCounts text)) :=
      List.take_sublist n _
    exact (hs.sublist hsub).imp (fun hh => hh)
  · intro kv hkv
    have hkv1 : kv ∈ List.insertionSort (@valOrd PyStr ℕ _) (keywordCounts text) :=
      List.mem_of_mem_take hkv
    have hkv2 : kv ∈ keywordCounts text :=
      (List.mem_insertionSort _).1 hkv1
    rcases List.mem_map.1 hkv2 with ⟨w, hw, heq⟩
    have hwtok : w ∈ saKeywordTokens text := (mem_firstDedup _ _).1 hw
    have hpred := List.of_mem_filter hwtok
    rw [Bool.and_eq_true] at hpred
    rcases hpred with ⟨hp1, hp2⟩
    have hns : w ∉ saStopWords := of_decide_eq_true hp1
    have hlong : 3 < w.length := of_decide_eq_true hp2
    rw [← heq]
    exact ⟨hns, hlong, rfl⟩

/-- A concrete text for the C7 witness. -/
def text7 : PyStr := "good good plan good".toList

/-- Witness for C7 at a concrete text, keyword and cut-off. -/
theorem C7_witness :
    ("good".toList, 3).1 ∉ saStopWords ∧ 3 < ("good".toList, 3).1.length ∧
    ("good".toList, 3).2 = (saKeywordTokens text7).count ("good".toList, 3).1 :=
  (C7_extract_keywords_spec text7 1).2.2.2.2 ("good".toList, 3) (by decide)

/-! ## C8: `_get_word_frequency` of the TextSummarizer -/

/-- The stop-word set of `TextSummarizer.__init__` (shorter than the
analyzer's). -/
def tsStopWords : List PyStr :=
  (["the", "is", "at", "which", "on", "and", "a", "an", "in",
    "to", "for", "of", "with", "as", "by", "that", "this",
    "it", "from", "or", "but", "are", "was", "were", "be"]).map String.toList

/-- Qualifying tokens of `_get_word_frequency`: cleaned lowercase words that
are not stop-words and have length > 2. -/
def tsTokens (text : PyStr) : List PyStr :=
  (pySplit (cleanText text)).filter
    (fun w => decide (w ∉ tsStopWords) && decide (2 < w.length))

/-- `max(word_freq.values())` with the `if word_freq else 1` guard. -/
def listMaxNat (l : List ℕ) : ℕ := l.foldr max 0

def maxFreq (text : PyStr) : ℕ :=
  if (firstDedup (tsTokens text)).isEmpty then 1
  else listMaxNat ((firstDedup (tsTokens text)).map
    (fun w => (tsTokens text).count w))

/-- `TextSummarizer._get_word_frequency` (`text_summarizer.py` lines 53-69):
count the qualifying tokens and divide each count by the maximum count.
(The leading underscore of the Python name is dropped.) -/
def get_word_frequency (text : PyStr) : List (PyStr × ℚ) :=
  (firstDedup (tsTokens text)).map
    (fun w => (w, ((tsTokens text).count w : ℚ) / (maxFreq text : ℚ)))

theorem listMaxNat_mem : ∀ l : List ℕ, l ≠ [] → listMaxNat l ∈ l := by
  intro l
  induction l with
  | nil => intro h; exact absurd rfl h
  | cons a l ih =>
    intro _
    cases l with
    | nil => simp [listMaxNat]
    | cons b l2 =>
      have hfold : listMaxNat (a :: b :: l2) = max a (listMaxNat (b :: l2)) := rfl
      rcases max_choice a (listMaxNat (b :: l2)) with hm | hm
    
      · rw [hfold, hm]; exact List.mem_cons_self _ _
      · rw [hfold, hm]; exact List.mem_cons_of_mem _ (ih (by simp))

theorem toLower_of_space (c : Char) (h : pyIsSpace c = true) : Char.toLower c = c := by
  unfold pyIsSpace at h
  repeat rw [Bool.or_eq_true] at h
  rcases h with ((((h | h) | h) | h) | h) | h <;>
    · have hc := eq_of_beq h
      subst hc
      decide

theorem splitWsAux_all_space :
    ∀ s : PyStr, (∀ c ∈ s, pyIsSpace c = true) → splitWsAux s [] = [] := by
  intro s
  induction s with
  | nil => intro _; rfl
  | cons c rest ih =>
    intro h
    have hc := h c (List.mem_cons_self c rest)
    rw [splitWsAux, if_pos hc, if_pos rfl]
    exact ih (fun x hx => h x (List.mem_cons_of_mem _ hx))

/-- Whitespace-only text produces no qualifying tokens. -/
theorem tsTokens_all_space (text : PyStr) (h : ∀ c ∈ text, pyIsSpace c = true) :
    tsTokens text = [] := by
  unfold tsTokens pySplit
  rw [splitWsAux_all_space]
  · rfl
  · intro c hc
    rcases List.mem_filter.1 hc with ⟨hcm, _⟩
    rcases List.mem_map.1 hcm with ⟨c0, hc0, heq⟩
    rw [← heq, toLower_of_space c0 (h c0 hc0)]
    exact h c0 hc0

/-- C8: each qualifying token's normalized weight is its raw count divided by
the maximum raw count; when any token exists, some entry has weight exactly
1; and empty or whitespace-only text yields an empty mapping. -/
theorem C8_word_frequency_normalized (text : PyStr) :
    (∀ w ∈ tsTokens text,
      pyGetQ (get_word_frequency text) w 0 =
        ((tsTokens text).count w : ℚ) / (maxFreq text : ℚ)) ∧
    (tsTokens text ≠ [] → ∃ kv ∈ get_word_frequency text, kv.2 = 1) ∧
    ((∀ c ∈ text, pyIsSpace c = true) → get_word_frequency text = []) := by
  refine ⟨?_, ?_, ?_⟩
  · intro w hw
    have hw' : w ∈ firstDedup (tsTokens text) := (mem_firstDedup _ _).2 hw
    unfold get_word_frequency pyGetQ
    rw [find?_map_of_mem
      (fun w => ((tsTokens text).count w : ℚ) / (maxFreq text : ℚ)) _ w hw']
  · intro hne
    have hkeys : firstDedup (tsTokens text) ≠ [] := by
      cases htok : tsTokens text with
      | nil => exact absurd htok hne
      | cons t ts => rw [firstDedup]; simp
    have hcounts : (firstDedup (tsTokens text)).map
        (fun w => (tsTokens text).count w) ≠ [] := by
      simp [hkeys]
    have hmax := listMaxNat_mem _ hcounts
    rcases List.mem_map.1 hmax with ⟨w0, hw0, hw0c⟩
    have hw0tok : w0 ∈ tsTokens text := (mem_firstDedup _ _).1 hw0
    have hcpos : 0 < (tsTokens text).count w0 := List.count_pos_iff.2 hw0tok
    have hmf : maxFreq text = (tsTokens text).count w0 := by
      unfold maxFreq
      rw [if_neg (by simp [hkeys]), hw0c]
    refine ⟨(w0, ((tsTokens text).count w0 : ℚ) / (maxFreq text : ℚ)), ?_, ?_⟩
    · exact List.mem_map.2 ⟨w0, hw0, rfl⟩
    · show ((tsTokens text).count w0 : ℚ) / (maxFreq text : ℚ) = 1
      rw [hmf]
      exact div_self (by exact_mod_cast Nat.pos_iff_ne_zero.1 hcpos)
  · intro h
    unfold get_word_frequency
    rw [tsTokens_all_space text h]
    rfl

/-- Concrete texts for the C8 witness. -/
def text8 : PyStr := "aaa bbb aaa".toList

def textSpace : PyStr := " ".toList

/-- Witness for C8 at a concrete text (and a whitespace-only text for the
empty case). -/
theorem C8_witness :
    pyGetQ (get_word_frequency text8) ("aaa".toList) 0 =
      ((tsTokens text8).count ("aaa".toList) : ℚ) / (maxFreq text8 : ℚ) ∧
    (∃ kv ∈ get_word_frequency text8, kv.2 = 1) ∧
    get_word_frequency textSpace = [] :=
  ⟨(C8_word_frequency_normalized text8).1 ("aaa".toList) (by decide),
   (C8_word_frequency_normalized text8).2.1 (by decide),
   (C8_word_frequency_normalized textSpace).2.2 (by decide)⟩

/-! ## C9: `summarize_single_comment` word-count bounds -/

/-- Tokens produced by `str.split()` are nonempty and whitespace-free. -/
theorem splitWsAux_tokens :
    ∀ (s acc : PyStr), (∀ c ∈ acc, pyIsSpace c = false) →
      ∀ t ∈ splitWsAux s acc, t ≠ [] ∧ ∀ c ∈ t, pyIsSpace c = false := by
  intro s
  induction s with
  | nil =>
    intro acc hacc t ht
    rw [splitWsAux] at ht
    by_cases hemp : acc = []
    · rw [if_pos hemp] at ht
      cases ht
    · rw [if_neg hemp] at ht
      rcases List.mem_singleton.1 ht with rfl
      refine ⟨by simpa using hemp, ?_⟩
      intro c hc
      exact hacc c (List.mem_reverse.1 hc)
  | cons c rest ih =>
    intro acc hacc t ht
    rw [splitWsAux] at ht
    by_cases hsp : pyIsSpace c
    · rw [if_pos hsp] at ht
      by_cases hemp : acc = []
      · rw [if_pos hemp] at ht
        exact ih [] (by intro x hx; cases hx) t ht
      · rw [if_neg hemp] at ht
        rcases List.mem_cons.1 ht with rfl | ht2
        · refine ⟨by simpa using hemp, ?_⟩
          intro x hx
          exact hacc x (List.mem_reverse.1 hx)
        · exact ih [] (by intro x hx; cases hx) t ht2
    · rw [if_neg hsp] at ht
      refine ih (c :: acc) ?_ t ht
      intro x hx
      rcases List.mem_cons.1 hx with rfl | hx2
      · exact Bool.of_not_eq_true hsp
      · exact hacc x hx2

theorem pySplit_tokens (s : PyStr) :
    ∀ t ∈ pySplit s, t ≠ [] ∧ ∀ c ∈ t, pyIsSpace c = false :=
  splitWsAux_tokens s [] (by intro c hc; cases hc)

/-- Consuming a whitespace-free chunk just extends the accumulator. -/
theorem splitWsAux_append_nonspace :
    ∀ (t s acc : PyStr), (∀ c ∈ t, pyIsSpace c = false) →
      splitWsAux (t ++ s) acc = splitWsAux s (t.reverse ++ acc) := by
  intro t
  induction t with
  | nil => intro s acc _; simp
  | cons c t2 ih =>
    intro s acc h
    have hc : pyIsSpace c = false := h c (List.mem_cons_self c t2)
    rw [List.cons_append, splitWsAux, if_neg (by simp [hc])]
    rw [ih s (c :: acc) (fun x hx => h x (List.mem_cons_of_mem _ hx))]
    simp

/-- Splitting a single nonempty whitespace-free token returns it alone. -/
theorem pySplit_single (t : PyStr) (hne : t ≠ [])
    (hsf : ∀ c ∈ t, pyIsSpace c = false) : pySplit t = [t] := by
  unfold pySplit
  rw [show t = t ++ [] by simp, splitWsAux_append_nonspace t [] [] hsf]
  rw [splitWsAux]
  rw [if_neg (by simp [hne])]
  simp

/-- `' '.join(...)` round-trips through `split()` on well-formed tokens. -/
theorem pySplit_join :
    ∀ ts : List PyStr,
      (∀ t ∈ ts, t ≠ [] ∧ ∀ c ∈ t, pyIsSpace c = false) →
      pySplit (pyJoin (' ' :: []) ts) = ts := by
  intro ts
  induction ts with
  | nil => intro _; rfl
  | cons t rest ih =>
    intro h
    cases rest with
    | nil =>
      exact pySplit_single t (h t (List.mem_cons_self t [])).1
        (h t (List.mem_cons_self t [])).2
    | cons t2 rest2 =>
      have hjoin : pyJoin (' ' :: []) (t :: t2 :: rest2) =
          t ++ (' ' :: pyJoin (' ' :: []) (t2 :: rest2)) := by
        rw [pyJoin]
        simp
      have ht := h t (List.mem_cons_self t _)
      unfold pySplit
      rw [hjoin, splitWsAux_append_nonspace t _ [] ht.2]
      rw [splitWsAux, if_pos (by decide)]
      rw [if_neg (by simp [ht.1])]
      rw [List.append_nil, List.reverse_reverse]
      exact congrArg (t :: ·) (ih (fun x hx => h x (List.mem_cons_of_mem _ hx)))

/-- Append a suffix to the last token (or make it the only token). -/
def appendToLast (suf : PyStr) : List PyStr → List PyStr
  | [] => [suf]
  | [t] => [t ++ suf]
  | t :: t2 :: ts => t :: appendToLast suf (t2 :: ts)

theorem appendToLast_ne_nil (suf : PyStr) :
    ∀ ts : List PyStr, appendToLast suf ts ≠ [] := by
  intro ts
  cases ts with
  | nil => simp [appendToLast]
  | cons t rest =>
    cases rest with
    | nil => simp [appendToLast]
    | cons t2 rest2 => simp [appendToLast]

/-- Appending a suffix to a join glues it onto the last token. -/
theorem pyJoin_append (suf : PyStr) :
    ∀ ts : List PyStr,
      pyJoin (' ' :: []) ts ++ suf = pyJoin (' ' :: []) (appendToLast suf ts) := by
  intro ts
  induction ts with
  | nil => simp [pyJoin, appendToLast]
  | cons t rest ih =>
    cases rest with
    | nil => simp [pyJoin, appendToLast]
    | cons t2 rest2 =>
      rw [show appendToLast suf (t :: t2 :: rest2) =
        t :: appendToLast suf (t2 :: rest2) from rfl]
      cases hshape : appendToLast suf (t2 :: rest2) with
      | nil => exact absurd hshape (appendToLast_ne_nil suf _)
      | cons x xs =>
        rw [pyJoin, pyJoin]
        rw [hshape] at ih
        rw [List.append_assoc, List.append_assoc, ih]
        simp [List.append_assoc]

theorem appendToLast_tokens (suf : PyStr) (hne : suf ≠ [])
    (hsf : ∀ c ∈ suf, pyIsSpace c = false) :
    ∀ ts : List PyStr,
      (∀ t ∈ ts, t ≠ [] ∧ ∀ c ∈ t, pyIsSpace c = false) →
      ∀ t ∈ appendToLast suf ts, t ≠ [] ∧ ∀ c ∈ t, pyIsSpace c = false := by
  intro ts
  induction ts with
  | nil =>
    intro _ t ht
    rcases List.mem_singleton.1 ht with rfl
    exact ⟨hne, hsf⟩
  | cons t0 rest ih =>
    intro h t ht
    cases rest with
    | nil =>
      rcases List.mem_singleton.1 ht with rfl
      have h0 := h t0 (List.mem_cons_self t0 [])
      refine ⟨by simp [h0.1], ?_⟩
      intro c hc
      rcases List.mem_append.1 hc with hc1 | hc2
      · exact h0.2 c hc1
      · exact hsf c hc2
    | cons t2 rest2 =>
      rcases List.mem_cons.1 ht with rfl | ht2
      · exact h t (List.mem_cons_self t _)
      · exact ih (fun x hx => h x (List.mem_cons_of_mem _ hx)) t ht2

theorem appendToLast_length (suf : PyStr) :
    ∀ ts : List PyStr, (appendToLast suf ts).length = max ts.length 1 := by
  intro ts
  induction ts with
  | nil => rfl
  | cons t rest ih =>
    cases rest with
    | nil => rfl
    | cons t2 rest2 =>
      rw [show appendToLast suf (t :: t2 :: rest2) =
        t :: appendToLast suf (t2 :: rest2) from rfl]
      rw [List.length_cons, ih]
      simp only [List.length_cons]
      omega

/-- `' '.join(ws[:k]) + '...'` of well-formed tokens has at most `k + 1`
words (the ellipsis merges into the last token when one exists). -/
def truncateWithEllipsis (ws : List PyStr) (k : ℕ) : PyStr :=
  pyJoin (' ' :: []) (ws.take k) ++ "...".toList

theorem wc_truncate (ws : List PyStr) (k : ℕ)
    (h : ∀ t ∈ ws, t ≠ [] ∧ ∀ c ∈ t, pyIsSpace c = false) :
    (pySplit (truncateWithEllipsis ws k)).length ≤ k + 1 := by
  unfold truncateWithEllipsis
  rw [pyJoin_append, pySplit_join _ (appendToLast_tokens _ (by decide) (by decide) _
    (fun t ht => h t (List.mem_of_mem_take ht))), appendToLast_length]
  have h1 : (ws.take k).length ≤ k := List.length_take_le k ws
  exact Nat.max_le.2 ⟨le_trans h1 (Nat.le_succ k), Nat.succ_le_succ (Nat.zero_le k)⟩

/-- Sentence score of `summarize_single_comment`: mean `word_freq` weight of
the sentence's lowercased words, 0 for a wordless sentence. -/
def sentenceScore (word_freq : List (PyStr × ℚ)) (sentence : PyStr) : ℚ :=
  let words_in_sentence := pySplit (pyLower sentence)
  let score := (words_in_sentence.map (fun w => pyGetQ word_freq w 0)).sum
  if words_in_sentence.isEmpty then 0
  else score / (words_in_sentence.length : ℚ)

/-- `TextSummarizer.summarize_single_comment` (`text_summarizer.py` lines
16-51).  The sentence-score dict keeps stripped nonempty sentences in
first-occurrence order (duplicate sentences collapse to one key whose score,
a pure function of the sentence, is unchanged by the overwrite);
`sorted(..., key=score, reverse=True)[:2]` is the stable descending sort. -/
def summarize_single_comment (text : PyStr) (max_length : ℕ) : PyStr :=
  let words := pySplit text
  if words.length ≤ max_length then text
  else if (pySplitDot text).length ≤ 2 then truncateWithEllipsis words max_length
  else
    let word_freq := get_word_frequency text
    let sentence_scores :=
      (firstDedup (((pySplitDot text).map pyStrip).filter (fun s => !s.isEmpty))).map
        (fun s => (s, sentenceScore word_freq s))
    let top_sentences := (List.insertionSort (@valOrd PyStr ℚ _) sentence_scores).take 2
    let summary := pyJoin ('.' :: ' ' :: []) (top_sentences.map (fun kv => kv.1))
    if max_length < (pySplit summary).length then
      truncateWithEllipsis (pySplit summary) max_length
    else summary

/-- The final guard of the summarizer bounds the output word count. -/
theorem final_branch_bound (summary : PyStr) (k : ℕ) :
    (pySplit (if k < (pySplit summary).length then
      truncateWithEllipsis (pySplit summary) k else summary)).length ≤ k + 1 := by
  by_cases hfin : k < (pySplit summary).length
  · rw [if_pos hfin]
    exact wc_truncate _ _ (pySplit_tokens summary)
  · rw [if_neg hfin]
    omega

/-- C9: `summarize_single_comment` returns the text unchanged when its word
count is at most `max_length`, and otherwise returns a string of at most
`max_length + 1` words (the ellipsis merges into the final word, and a bare
ellipsis counts as one word). -/
theorem C9_summarize_word_bounds (text : PyStr) (max_length : ℕ) :
    ((pySplit text).length ≤ max_length →
      summarize_single_comment text max_length = text) ∧
    (max_length < (pySplit text).length →
      (pySplit (summarize_single_comment text max_length)).length ≤ max_length + 1) := by
  constructor
  · intro h
    simp only [summarize_single_comment]
    rw [if_pos h]
  · intro h
    simp only [summarize_single_comment]
    rw [if_neg (not_le.2 h)]
    by_cases hsen : (pySplitDot text).length ≤ 2
    · rw [if_pos hsen]
      exact wc_truncate _ _ (pySplit_tokens text)
    · rw [if_neg hsen]
      exact final_branch_bound _ max_length

/-- Concrete text for the C9 witness (4 words, truncated to 2). -/
def text9 : PyStr := "good work team effort".toList

/-- Witness for C9: both branches at concrete inputs. -/
theorem C9_witness :
    summarize_single_comment text9 50 = text9 ∧
    (pySplit (summarize_single_comment text9 2)).length ≤ 2 + 1 :=
  ⟨(C9_summarize_word_bounds text9 50).1 (by decide),
   (C9_summarize_word_bounds text9 2).2 (by decide)⟩
